import Mathlib

/-
Verification development for the bitcoin-da adapter (sources: src/verifier.rs,
src/helpers/parsers.rs, src/helpers/builders.rs).

Modelling conventions:
* Byte strings are `List Nat` (each entry a byte value).
* Bitcoin scripts are modelled at the instruction level, the view produced by
  rust-bitcoin's `Script::instructions()` iterator: an instruction is either a
  plain opcode or a data push.  The byte 0x00 (`OP_FALSE` = `OP_PUSHBYTES_0`)
  reads back from a serialized script as an empty data push, so
  `Builder::push_opcode(OP_FALSE)` and `Builder::push_int(0)` are modelled as
  an empty push, while `push_int(1..=16)` is modelled as the corresponding
  `OP_PUSHNUM` opcode, exactly as rust-bitcoin encodes and re-parses them.
* Rust functions that can panic are modelled with an explicit `RustRes` result
  carrying `ok`, the typed `err`, and `panic` outcomes.
* External cryptographic and serialization primitives (txid hashing, sha256d,
  secp256k1 parsing/verification, Brotli decompression, merkle roots, taproot
  addresses, transaction virtual sizes, schnorr signing) are opaque pure
  functions collected in an `Env` record; the control flow of the repository's
  functions over these primitives is translated faithfully from the source.
* The fee rate `f64` parameters are modelled as the opaque function
  `size ↦ ((size as f64) * fee_rate).ceil() as u64`, of type `Nat → Nat`.
* Unbounded `loop`s in the source (`build_commit_transaction`,
  `build_reveal_transaction`, the PoW mining loop) take an explicit fuel
  argument; exhausting fuel yields `none`, every source behaviour is a `some`.
-/

namespace BitcoinDa

abbrev Bytes := List Nat

/-- A script instruction as yielded by rust-bitcoin `Script::instructions()`:
either a non-push opcode or a data push. -/
inductive Inst where
  | op (code : Nat)
  | push (bytes : Bytes)
deriving DecidableEq

def OP_FALSE : Nat := 0x00
def OP_IF : Nat := 0x63
def OP_ENDIF : Nat := 0x68
def OP_CHECKSIG : Nat := 0xac

/-- Modelled from the spec: the five tag constants live in the helpers
constants module (`src/helpers/mod.rs`), which is not part of the provided
sources.  The spec fixes them as byte strings named after each field
(`<tag:"rollup_name">` and so on); concrete values are irrelevant to the
claims, only that builder and parser share them. -/
def ROLLUP_NAME_TAG : Bytes := "rollup_name".toList.map Char.toNat

/-- Modelled from the spec: see `ROLLUP_NAME_TAG`. -/
def SIGNATURE_TAG : Bytes := "signature".toList.map Char.toNat

/-- Modelled from the spec: see `ROLLUP_NAME_TAG`. -/
def PUBLICKEY_TAG : Bytes := "publickey".toList.map Char.toNat

/-- Modelled from the spec: see `ROLLUP_NAME_TAG`. -/
def RANDOM_TAG : Bytes := "random".toList.map Char.toNat

/-- Modelled from the spec: see `ROLLUP_NAME_TAG`. -/
def BODY_TAG : Bytes := "body".toList.map Char.toNat

structure ParsedInscription where
  body : Bytes
  signature : Bytes
  public_key : Bytes
deriving DecidableEq

inductive ParserError where
  | InvalidRollupName
  | EnvelopeHasNonPushOp
  | EnvelopeHasIncorrectFormat
  | NonTapscriptWitness
  | IncorrectSignature
deriving DecidableEq

/-- The final check of `parse_relevant_inscriptions` (parsers.rs:121-129). -/
def finishInscription (body signature public_key : Bytes) :
    Except ParserError ParsedInscription :=
  if body.length = 0 ∨ signature.length = 0 ∨ public_key.length = 0 then
    .error .EnvelopeHasIncorrectFormat
  else
    .ok ⟨body, signature, public_key⟩

/-- The `while let Some(Ok(instruction))` loop of `parse_relevant_inscriptions`
(parsers.rs:62-119).  The stream element type is `Except Unit Inst` because the
instructions iterator yields `Result`s and the loop stops at the first error or
at the end of the stream; the loop state `(last_op, inside_envelope,
inside_envelope_index, body, signature, public_key)` is passed explicitly. -/
def parseLoop (rollupName : Bytes) :
    List (Except Unit Inst) → Option Nat → Bool → Nat → Bytes → Bytes → Bytes →
    Except ParserError ParsedInscription
  | [], _, _, _, body, sig, pk => finishInscription body sig pk
  | .error _ :: _, _, _, _, body, sig, pk => finishInscription body sig pk
  | .ok (.op code) :: rest, lastOp, inside, idx, body, sig, pk =>
    if code = OP_IF then
      if lastOp = some OP_FALSE then
        parseLoop rollupName rest lastOp true idx body sig pk
      else if inside then
        .error .EnvelopeHasNonPushOp
      else
        parseLoop rollupName rest lastOp inside idx body sig pk
    else if code = OP_ENDIF then
      if inside then
        finishInscription body sig pk
      else
        parseLoop rollupName rest lastOp inside idx body sig pk
    else
      if inside then
        .error .EnvelopeHasNonPushOp
      else
        parseLoop rollupName rest (some code) inside idx body sig pk
  | .ok (.push bs) :: rest, lastOp, inside, idx, body, sig, pk =>
    if inside then
      if idx = 0 ∧ bs ≠ ROLLUP_NAME_TAG then
        .error .EnvelopeHasIncorrectFormat
      else if idx = 1 ∧ bs ≠ rollupName then
        .error .InvalidRollupName
      else if idx = 2 ∧ bs ≠ SIGNATURE_TAG then
        .error .EnvelopeHasIncorrectFormat
      else if idx = 3 then
        parseLoop rollupName rest lastOp inside (idx + 1) body (sig ++ bs) pk
      else if idx = 4 ∧ bs ≠ PUBLICKEY_TAG then
        .error .EnvelopeHasIncorrectFormat
      else if idx = 5 then
        parseLoop rollupName rest lastOp inside (idx + 1) body sig (pk ++ bs)
      else if idx = 6 ∧ bs ≠ RANDOM_TAG then
        .error .EnvelopeHasIncorrectFormat
      else if idx = 8 ∧ bs ≠ BODY_TAG then
        .error .EnvelopeHasIncorrectFormat
      else if 9 ≤ idx then
        parseLoop rollupName rest lastOp inside (idx + 1) (body ++ bs) sig pk
      else
        parseLoop rollupName rest lastOp inside (idx + 1) body sig pk
    else
      if bs.length = 0 then
        parseLoop rollupName rest (some OP_FALSE) inside idx body sig pk
      else
        parseLoop rollupName rest lastOp inside idx body sig pk

/-- `parse_relevant_inscriptions` (parsers.rs:46-130). -/
def parse_relevant_inscriptions (instructions : List (Except Unit Inst))
    (rollupName : Bytes) : Except ParserError ParsedInscription :=
  parseLoop rollupName instructions none false 0 [] [] []

instance {ε α : Type} [DecidableEq ε] [DecidableEq α] : DecidableEq (Except ε α)
  | .ok a, .ok b =>
    if h : a = b then .isTrue (by rw [h])
    else .isFalse (by intro hh; cases hh; exact h rfl)
  | .ok _, .error _ => .isFalse (by intro h; cases h)
  | .error _, .ok _ => .isFalse (by intro h; cases h)
  | .error e, .error f =>
    if h : e = f then .isTrue (by rw [h])
    else .isFalse (by intro hh; cases hh; exact h rfl)

/-- Result of a Rust function: the returned `Ok` value, the returned typed
error, or a process panic with its message. -/
inductive RustRes (ε α : Type) where
  | ok (a : α)
  | err (e : ε)
  | panic (msg : String)
deriving DecidableEq

/-- Instruction iteration over raw script bytes, as rust-bitcoin
`Instructions` does it: byte 0x00 is an empty push, 0x01-0x4b push that many
following bytes, 0x4c-0x4e are PUSHDATA1/2/4 with an explicit little-endian
length, anything else is an opcode.  A truncated push yields an error element,
which ends `parseLoop`. -/
def bytesToInstructionsFuel : Nat → List Nat → List (Except Unit Inst)
  | 0, _ => []
  | _, [] => []
  | fuel + 1, b :: rest =>
    if b = 0 then
      .ok (.push []) :: bytesToInstructionsFuel fuel rest
    else if b ≤ 75 then
      if rest.length < b then [.error ()]
      else .ok (.push (rest.take b)) :: bytesToInstructionsFuel fuel (rest.drop b)
    else if b = 0x4c then
      match rest with
      | [] => [.error ()]
      | n :: r2 =>
        if r2.length < n then [.error ()]
        else .ok (.push (r2.take n)) :: bytesToInstructionsFuel fuel (r2.drop n)
    else if b = 0x4d then
      match rest with
      | n1 :: n2 :: r2 =>
        let n := n1 + 256 * n2
        if r2.length < n then [.error ()]
        else .ok (.push (r2.take n)) :: bytesToInstructionsFuel fuel (r2.drop n)
      | _ => [.error ()]
    else if b = 0x4e then
      match rest with
      | n1 :: n2 :: n3 :: n4 :: r2 =>
        let n := n1 + 256 * n2 + 65536 * n3 + 16777216 * n4
        if r2.length < n then [.error ()]
        else .ok (.push (r2.take n)) :: bytesToInstructionsFuel fuel (r2.drop n)
      | _ => [.error ()]
    else
      .ok (.op b) :: bytesToInstructionsFuel fuel rest

/-- Entry point: the byte count is an upper bound on the instruction count, so
it is a sufficient structural fuel. -/
def bytesToInstructions (bs : List Nat) : List (Except Unit Inst) :=
  bytesToInstructionsFuel bs.length bs

/-- First byte of the serialization of an instruction (the opcode byte, or the
length prefix of a push). -/
def instFirstByte : Inst → Nat
  | .op c => c
  | .push bs =>
    if bs.length = 0 then 0
    else if bs.length ≤ 75 then bs.length
    else if bs.length ≤ 255 then 0x4c
    else if bs.length ≤ 65535 then 0x4d
    else 0x4e

/-- A witness stack element: raw bytes (signatures, control blocks) or a
serialized script, kept at the instruction level per the conventions above. -/
inductive WElem where
  | bytes (bs : Bytes)
  | script (s : List Inst)
deriving DecidableEq

def WElem.firstByte : WElem → Option Nat
  | .bytes bs => bs.head?
  | .script s =>
    match s with
    | [] => none
    | i :: _ => some (instFirstByte i)

/-- The instruction stream of a witness element read back as a script. -/
def WElem.instructions : WElem → List (Except Unit Inst)
  | .bytes bs => bytesToInstructions bs
  | .script s => s.map .ok

/-- rust-bitcoin `Witness::tapscript()`: with at least two elements the
tapscript is the second-to-last one, skipping a trailing annex element (first
byte 0x50); otherwise there is no tapscript. -/
def tapscript (w : List WElem) : Option WElem :=
  match w.getLast? with
  | none => none
  | some last =>
    if 3 ≤ w.length ∧ last.firstByte = some 0x50 then w[w.length - 3]?
    else if 2 ≤ w.length then w[w.length - 2]?
    else none

structure MOutPoint where
  txid : Bytes
  vout : Nat
deriving DecidableEq

structure TxIn where
  previous_output : MOutPoint
  script_sig : List Inst
  sequence : Nat
  witness : List WElem
deriving DecidableEq

structure TxOut where
  value : Nat
  script_pubkey : Bytes
deriving DecidableEq

structure Transaction where
  version : Int
  lock_time : Nat
  input : List TxIn
  output : List TxOut
deriving DecidableEq

/-- `Sequence::ENABLE_RBF_NO_LOCKTIME`. -/
def SEQUENCE_RBF : Nat := 0xFFFFFFFD

/-- `get_script` (parsers.rs:37-42).  `tx.input[0]` is an unchecked index, so
an empty input list is a panic, not a `ParserError`. -/
def get_script (tx : Transaction) : RustRes ParserError WElem :=
  match tx.input with
  | [] => .panic "index out of bounds"
  | i :: _ =>
    match tapscript i.witness with
    | none => .err .NonTapscriptWitness
    | some s => .ok s

/-- `parse_transaction` (parsers.rs:27-34). -/
def parse_transaction (tx : Transaction) (rollupName : Bytes) :
    RustRes ParserError ParsedInscription :=
  match get_script tx with
  | .panic m => .panic m
  | .err e => .err e
  | .ok elem =>
    match parse_relevant_inscriptions elem.instructions rollupName with
    | .ok p => .ok p
    | .error e => .err e

/-- `spec::utxo::UTXO` as consumed by the builder (fields per spec §3). -/
structure UTXO where
  tx_id : Bytes
  vout : Nat
  address : String
  script_pubkey : String
  amount : Nat
  confirmations : Nat
  spendable : Bool
  solvable : Bool
deriving DecidableEq

def amountLe (a b : UTXO) : Prop := a.amount ≤ b.amount

def amountGe (a b : UTXO) : Prop := b.amount ≤ a.amount

instance : DecidableRel amountLe := fun a b => Nat.decLe a.amount b.amount

instance : DecidableRel amountGe := fun a b => Nat.decLe b.amount a.amount

instance : IsTotal UTXO amountLe := ⟨fun a b => Nat.le_total a.amount b.amount⟩

instance : IsTrans UTXO amountLe := ⟨fun _ _ _ h h2 => Nat.le_trans h h2⟩

instance : IsTotal UTXO amountGe := ⟨fun a b => Nat.le_total b.amount a.amount⟩

instance : IsTrans UTXO amountGe := ⟨fun _ _ _ h h2 => Nat.le_trans h2 h⟩

/-- The greedy accumulation loop of `choose_utxos` (builders.rs:110-117):
push UTXOs in order, stopping as soon as the running sum reaches `amount`. -/
def greedySelect (amount : Nat) : List UTXO → Nat → List UTXO → List UTXO × Nat
  | [], sum, chosen => (chosen, sum)
  | u :: rest, sum, chosen =>
    let sum2 := sum + u.amount
    let chosen2 := chosen ++ [u]
    if amount ≤ sum2 then (chosen2, sum2)
    else greedySelect amount rest sum2 chosen2

/-- `choose_utxos` (builders.rs:88-125).  `Vec::sort_by` is a stable sort and
is modelled with `List.insertionSort`, which is stable for the same comparator.
The `[]` match arm models the (unreachable) `bigger_utxos[0]` index panic. -/
def choose_utxos (utxos : List UTXO) (amount : Nat) :
    Except String (List UTXO × Nat) :=
  let bigger_utxos := utxos.filter (fun u => amount ≤ u.amount)
  if 0 < bigger_utxos.length then
    match List.insertionSort amountLe bigger_utxos with
    | [] => .error "index out of bounds"
    | u :: _ => .ok ([u], 0 + u.amount)
  else
    let smaller_utxos := utxos.filter (fun u => u.amount < amount)
    let res := greedySelect amount (List.insertionSort amountGe smaller_utxos) 0 []
    if res.2 < amount then .error "not enought UTXOs"
    else .ok res

def leBytesFuel : Nat → Nat → Bytes
  | 0, _ => []
  | _, 0 => []
  | fuel + 1, n + 1 => (n + 1) % 256 :: leBytesFuel fuel ((n + 1) / 256)

/-- Little-endian base-256 digits of a positive number (no leading zero); `n`
itself bounds the digit count, so it serves as structural fuel. -/
def leBytes (n : Nat) : Bytes :=
  leBytesFuel n n

/-- `Script::write_scriptint` for a positive value: little-endian magnitude
with a 0x00 continuation byte when the top bit of the last byte is set. -/
def scriptIntBytes (n : Nat) : Bytes :=
  let le := leBytes n
  if 0x80 ≤ le.getLastD 0 then le ++ [0] else le

/-- `Builder::push_int` followed by instruction re-parsing: -1 and 1..=16
become `OP_PUSHNUM` opcodes, 0 becomes `OP_FALSE` whose byte reads back as an
empty push, anything else is a script-int data push.  Only nonneg values occur
in this codebase (the mining nonce starts at 0 and increments). -/
def pushInt (data : Int) : Inst :=
  if data = -1 ∨ (1 ≤ data ∧ data ≤ 16) then .op (data + 80).toNat
  else if data = 0 then .push []
  else .push (scriptIntBytes data.natAbs)

def chunks520Fuel : Nat → Bytes → List Bytes
  | 0, _ => []
  | _, [] => []
  | fuel + 1, b :: l => (b :: l).take 520 :: chunks520Fuel fuel ((b :: l).drop 520)

/-- `body.chunks(520)` (builders.rs:357); the byte count bounds the chunk
count, so it serves as structural fuel. -/
def chunks520 (l : Bytes) : List Bytes :=
  chunks520Fuel l.length l

/-- The environment of opaque external primitives (crypto, hashing, sizes,
addresses); see the conventions at the top of the file. -/
structure Env where
  /-- txid of a transaction: sha256d of the non-witness serialization.  It is
  always applied to a witness-stripped transaction. -/
  txid : Transaction → Bytes
  /-- `sha256d::Hash::hash`. -/
  sha256d : Bytes → Bytes
  /-- whether `secp256k1::PublicKey::from_slice` succeeds on these bytes. -/
  validPubkey : Bytes → Bool
  /-- whether `ecdsa::Signature::from_compact` succeeds on these bytes. -/
  validSignature : Bytes → Bool
  /-- `Secp256k1::verify_ecdsa message signature pubkey`. -/
  verifyEcdsa : Bytes → Bytes → Bytes → Bool
  /-- `decompress_blob`: `none` models the panic on malformed input. -/
  decompress : Bytes → Option Bytes
  /-- `bitcoin::merkle_tree::calculate_root`; `none` on an empty list. -/
  calculateRoot : List Bytes → Option Bytes
  /-- `get_size` (builders.rs:61-86): vsize of the draft transaction with a
  dummy witness, optionally with reveal script and control block bytes. -/
  getSize : List TxIn → List TxOut → Option (List Inst × Bytes) → Nat
  /-- x-only public key of the fresh per-invocation key pair (RNG abstracted). -/
  xonlyPubkey : Bytes
  /-- script_pubkey of the P2TR commit address derived from a reveal script
  (taproot spend info + `Address::p2tr`; the network only affects the textual
  address, not the script_pubkey semantics modelled here). -/
  commitSpk : List Inst → Bytes
  /-- schnorr signature bytes over the BIP-341 sighash of the reveal tx. -/
  schnorrSign : Transaction → List Inst → Bytes
  /-- parity bit in the first byte of `ControlBlock::serialize`. -/
  ctrlParity : List Inst → Bool
  /-- remaining bytes of `ControlBlock::serialize` after the first byte. -/
  ctrlRest : List Inst → Bytes
  /-- whether the defense-in-depth `assert_eq` of the recovered tweaked
  address against the commit address (builders.rs:438-444) holds. -/
  addrCheckOk : List Inst → Bool

/-- `ControlBlock::serialize`: first byte is the TapScript leaf version 0xc0
with the output-key parity bit, followed by the key and merkle path bytes. -/
def controlBlockBytes (env : Env) (s : List Inst) : Bytes :=
  (0xc0 + (if env.ctrlParity s then 1 else 0)) :: env.ctrlRest s

/-- Drop all witness data; the txid is computed on what remains. -/
def stripWitness (tx : Transaction) : Transaction :=
  { tx with input := tx.input.map (fun i => { i with witness := [] }) }

/-- `Transaction::txid()`. -/
def txidOf (env : Env) (tx : Transaction) : Bytes :=
  env.txid (stripWitness tx)

/-- The all-zero-txid dummy input both builders use for the initial size
estimate (builders.rs:135-146 and 236-247). -/
def dummyTxIn : TxIn :=
  ⟨⟨List.replicate 32 0, 0⟩, [], SEQUENCE_RBF, []⟩

/-- One output, plus a change output when the excess over `input_total` is at
least the 546-sat dust floor (builders.rs:179-193 and 266-280). -/
def outputsWithChange (output_value : Nat) (recipientSpk : Bytes)
    (inputsSum input_total : Nat) : List TxOut :=
  [⟨output_value, recipientSpk⟩] ++
    (if input_total ≤ inputsSum ∧ 546 ≤ inputsSum - input_total then
      [⟨inputsSum - input_total, recipientSpk⟩]
    else [])

/-- The size-stable fee loop of `build_commit_transaction`
(builders.rs:166-220).  `size` is the vsize the fee is computed from; the loop
exits when recomputing the vsize leaves it unchanged. -/
def commitLoop (env : Env) (utxos : List UTXO) (recipientSpk : Bytes)
    (output_value : Nat) (fee_rate : Nat → Nat) :
    Nat → Nat → Option (Except String Transaction)
  | 0, _ => none
  | fuel + 1, size =>
    let fee := fee_rate size
    let input_total := output_value + fee
    match choose_utxos utxos input_total with
    | .error _ => some (.error "utxos are not enough")
    | .ok (chosen_utxos, sum) =>
      let outputs := outputsWithChange output_value recipientSpk sum input_total
      let inputs := chosen_utxos.map
        (fun u => TxIn.mk ⟨u.tx_id, u.vout⟩ [] SEQUENCE_RBF [])
      let size2 := env.getSize inputs outputs none
      if size2 = size then some (.ok ⟨1, 0, inputs, outputs⟩)
      else commitLoop env utxos recipientSpk output_value fee_rate fuel size2

/-- `build_commit_transaction` (builders.rs:127-223). -/
def build_commit_transaction (env : Env) (utxos : List UTXO)
    (recipientSpk : Bytes) (output_value : Nat) (fee_rate : Nat → Nat)
    (fuel : Nat) : Option (Except String Transaction) :=
  let size := env.getSize [dummyTxIn] [⟨output_value, recipientSpk⟩] none
  let utxos2 := utxos.filter (fun u => u.spendable ∧ u.solvable ∧ 546 < u.amount)
  if utxos2.length = 0 then some (.error "no spendable utxos")
  else commitLoop env utxos2 recipientSpk output_value fee_rate fuel size

/-- The size-stable fee loop of `build_reveal_transaction`
(builders.rs:261-304): single fixed input spending the commit output. -/
def revealLoop (env : Env) (input_value : Nat) (input_txid : Bytes)
    (input_vout : Nat) (recipientSpk : Bytes) (output_value : Nat)
    (fee_rate : Nat → Nat) (script : List Inst) (ctrl : Bytes) :
    Nat → Nat → Option (Except String Transaction)
  | 0, _ => none
  | fuel + 1, size =>
    let fee := fee_rate size
    let input_total := output_value + fee
    let outputs := outputsWithChange output_value recipientSpk input_value input_total
    let inputs := [TxIn.mk ⟨input_txid, input_vout⟩ [] SEQUENCE_RBF []]
    let size2 := env.getSize inputs outputs (some (script, ctrl))
    if size2 = size then some (.ok ⟨1, 0, inputs, outputs⟩)
    else revealLoop env input_value input_txid input_vout recipientSpk
      output_value fee_rate script ctrl fuel size2

/-- `build_reveal_transaction` (builders.rs:225-307). -/
def build_reveal_transaction (env : Env) (input_utxo : TxOut)
    (input_txid : Bytes) (input_vout : Nat) (recipientSpk : Bytes)
    (output_value : Nat) (fee_rate : Nat → Nat) (script : List Inst)
    (ctrl : Bytes) (fuel : Nat) : Option (Except String Transaction) :=
  let size := env.getSize [dummyTxIn] [⟨output_value, recipientSpk⟩]
    (some (script, ctrl))
  if input_utxo.value < 546 then some (.error "input utxo not big enough")
  else revealLoop env input_utxo.value input_txid input_vout recipientSpk
    output_value fee_rate script ctrl fuel size

/-- The full reveal script for a given nonce (builders.rs:328-365): key +
`OP_CHECKSIG`, then the `OP_FALSE OP_IF` envelope with the tagged pushes, the
nonce, the body tag, the 520-byte body chunks and `OP_ENDIF`. -/
def revealScriptFor (env : Env) (rollupName signature sequencer_public_key
    body : Bytes) (random : Int) : List Inst :=
  [.push env.xonlyPubkey, .op OP_CHECKSIG, .push [], .op OP_IF,
   .push ROLLUP_NAME_TAG, .push rollupName,
   .push SIGNATURE_TAG, .push signature,
   .push PUBLICKEY_TAG, .push sequencer_public_key,
   .push RANDOM_TAG] ++
  [pushInt random, .push BODY_TAG] ++
  (chunks520 body).map Inst.push ++ [.op OP_ENDIF]

/-- The PoW mining loop of `create_inscription_transactions`
(builders.rs:345-450): rebuild the script with the current nonce, build commit
and reveal, and return when the reveal txid starts with two zero bytes, after
attaching the `[signature, script, control block]` witness and checking the
recovered commit address. -/
def inscribeLoop (env : Env) (rollup_name signature sequencer_public_key
    body : Bytes) (utxos : List UTXO) (recipientSpk : Bytes)
    (commit_fee_rate reveal_fee_rate : Nat → Nat) (commitFuel revealFuel : Nat) :
    Nat → Int → Option (RustRes String (Transaction × Transaction))
  | 0, _ => none
  | fuel + 1, random =>
    let reveal_script :=
      revealScriptFor env rollup_name signature sequencer_public_key body random
    let control_block := controlBlockBytes env reveal_script
    let commit_tx_address := env.commitSpk reveal_script
    match build_commit_transaction env utxos commit_tx_address 546
        commit_fee_rate commitFuel with
    | none => none
    | some (.error e) => some (.err e)
    | some (.ok unsigned_commit_tx) =>
      match unsigned_commit_tx.output with
      | [] => some (.panic "index out of bounds")
      | output_to_reveal :: _ =>
        match build_reveal_transaction env output_to_reveal
            (txidOf env unsigned_commit_tx) 0 recipientSpk 546 reveal_fee_rate
            reveal_script control_block revealFuel with
        | none => none
        | some (.error e) => some (.err e)
        | some (.ok reveal_tx) =>
          if (txidOf env reveal_tx).take 2 = [0, 0] then
            let sigBytes := env.schnorrSign reveal_tx reveal_script
            match reveal_tx.input with
            | [] => some (.panic "witness for input 0 is missing")
            | i0 :: rest =>
              let reveal_tx2 : Transaction :=
                { reveal_tx with input :=
                    { i0 with witness := i0.witness ++
                      [WElem.bytes sigBytes, WElem.script reveal_script,
                       WElem.bytes control_block] } :: rest }
              if env.addrCheckOk reveal_script then
                some (.ok (unsigned_commit_tx, reveal_tx2))
              else some (.panic "assertion failed: address mismatch")
          else
            inscribeLoop env rollup_name signature sequencer_public_key body
              utxos recipientSpk commit_fee_rate reveal_fee_rate commitFuel
              revealFuel fuel (random + 1)

/-- `create_inscription_transactions` (builders.rs:312-451).  The network
parameter is absorbed into `Env.commitSpk` (it only affects textual address
rendering); the `recipient : Address` parameter is carried as its
script_pubkey bytes. -/
def create_inscription_transactions (env : Env) (rollup_name : Bytes)
    (body signature sequencer_public_key : Bytes) (utxos : List UTXO)
    (recipientSpk : Bytes) (commit_fee_rate reveal_fee_rate : Nat → Nat)
    (commitFuel revealFuel mineFuel : Nat) :
    Option (RustRes String (Transaction × Transaction)) :=
  inscribeLoop env rollup_name signature sequencer_public_key body utxos
    recipientSpk commit_fee_rate reveal_fee_rate commitFuel revealFuel
    mineFuel 0

/-- `ChainValidityCondition` (verifier.rs:42-45). -/
structure ChainValidityCondition where
  prev_hash : Bytes
  block_hash : Bytes
deriving DecidableEq

inductive ValidityConditionError where
  | BlocksNotConsecutive
deriving DecidableEq

inductive ValidationError where
  | InvalidTx
  | InvalidProof
  | InvalidBlock
deriving DecidableEq

/-- `ValidityCondition::combine` (verifier.rs:54-59). -/
def combine (a rhs : ChainValidityCondition) :
    Except ValidityConditionError ChainValidityCondition :=
  if a.block_hash ≠ rhs.prev_hash then .error .BlocksNotConsecutive
  else .ok rhs

/-- `BlobWithSender`: sender public key bytes, sha256d hash of the compressed
body, and the (decompressed) blob content that `advance`/`accumulator`
reads back in full (verifier.rs:148-164). -/
structure BlobWithSender where
  hash : Bytes
  sender : Bytes
  blob : Bytes
deriving DecidableEq

/-- The block header wrapper seen through `BlockHeaderTrait`.  The spec module
defining it is not part of the provided sources; `block_hash` is
`Modelled from the spec:` the header's own hash, exposed alongside the
`prev_hash` and `merkle_root` accessors the verifier reads. -/
structure HeaderWrapper where
  prev_hash : Bytes
  merkle_root : Bytes
  block_hash : Bytes
deriving DecidableEq

structure InclusionMultiProof where
  txs : List Bytes
deriving DecidableEq

def findFromList : List Bytes → Bytes → Nat → Option Nat
  | [], _, _ => none
  | t :: rest, h, i => if t = h then some i else findFromList rest h (i + 1)

/-- The search of verifier.rs:112-119: first index `i` at or after `start`
with `txs[i] = h`, realized by scanning the suffix `txs.drop start`. -/
def findFrom (txs : List Bytes) (h : Bytes) (start : Nat) : Option Nat :=
  findFromList (txs.drop start) h start

/-- `HashSet` insertion (the `collect::<HashSet<_>>` of verifier.rs:170). -/
def hsInsert (s : List Bytes) (x : Bytes) : List Bytes :=
  if x ∈ s then s else x :: s

/-- State threaded through the completeness-proof pass: the inclusion-proof
cursor `prev_index_in_inclusion`, the position of the blobs iterator, and the
set of completeness txids collected so far. -/
structure VState where
  prevIndex : Nat
  blobIdx : Nat
  hashes : List Bytes
deriving DecidableEq

/-- The body of the completeness-proof closure (verifier.rs:99-169) for one
transaction at index `idxC` of the completeness proof. -/
def verifyTxStep (env : Env) (rollupName : Bytes) (blobs : List BlobWithSender)
    (inclusionTxs : List Bytes) (idxC : Nat) (tx : Transaction) (st : VState) :
    RustRes ValidationError VState :=
  let tx_hash := txidOf env tx
  if tx_hash.take 2 ≠ [0, 0] then
    .panic "non-relevant tx found in completeness proof"
  else
    match findFrom inclusionTxs tx_hash st.prevIndex with
    | none =>
      .panic "tx in completeness proof is not found in DA block or order was not preserved"
    | some i =>
      let st1 : VState := { st with prevIndex := i + 1 }
      match parse_transaction tx rollupName with
      | .panic m => .panic m
      | .err _ => .ok { st1 with hashes := hsInsert st1.hashes tx_hash }
      | .ok parsed =>
        let blob_hash := env.sha256d parsed.body
        if ¬ env.validPubkey parsed.public_key then
          .panic "called unwrap on an Err value: PublicKey from_slice"
        else if ¬ env.validSignature parsed.signature then
          .panic "called unwrap on an Err value: Signature from_compact"
        else if blob_hash.length ≠ 32 then
          .panic "called unwrap on an Err value: Message from_slice"
        else if env.verifyEcdsa blob_hash parsed.signature parsed.public_key then
          match blobs[st1.blobIdx]? with
          | none => .panic "valid blob was not found in blobs"
          | some blob =>
            let st2 : VState := { st1 with blobIdx := st1.blobIdx + 1 }
            if blob.hash ≠ blob_hash then
              .panic "blobs was tampered with"
            else if parsed.public_key ≠ blob.sender then
              .panic "incorrect sender in blob"
            else
              match env.decompress parsed.body with
              | none => .panic "decompression failed"
              | some decompressed =>
                match blobs[idxC]? with
                | none => .panic "index out of bounds"
                | some b2 =>
                  if b2.blob ≠ decompressed then
                    .panic "blob content was modified"
                  else
                    .ok { st2 with hashes := hsInsert st2.hashes tx_hash }
        else
          .ok { st1 with hashes := hsInsert st1.hashes tx_hash }

/-- The full completeness-proof pass (the `map` + `collect` of
verifier.rs:96-170), driven in order with the completeness index. -/
def verifyTxList (env : Env) (rollupName : Bytes) (blobs : List BlobWithSender)
    (inclusionTxs : List Bytes) :
    List Transaction → Nat → VState → RustRes ValidationError VState
  | [], _, st => .ok st
  | tx :: rest, idx, st =>
    match verifyTxStep env rollupName blobs inclusionTxs idx tx st with
    | .panic m => .panic m
    | .err e => .err e
    | .ok st2 => verifyTxList env rollupName blobs inclusionTxs rest (idx + 1) st2

/-- The walk over the inclusion proof removing every PoW-tagged txid from the
completeness set (verifier.rs:179-187). -/
def removeWalk : List Bytes → List Bytes → RustRes ValidationError (List Bytes)
  | [], hashes => .ok hashes
  | t :: rest, hashes =>
    if t.take 2 = [0, 0] then
      if t ∈ hashes then removeWalk rest (hashes.erase t)
      else
        .panic "relevant transaction in DA block was not included in completeness proof"
    else removeWalk rest hashes

/-- `verify_relevant_tx_list` (verifier.rs:74-213).  Note verifier.rs:83-86:
both fields of the returned validity condition are assigned
`block_header.prev_hash()`. -/
def verify_relevant_tx_list (env : Env) (rollup_name : Bytes)
    (block_header : HeaderWrapper) (blobs : List BlobWithSender)
    (inclusion_proof : InclusionMultiProof)
    (completeness_proof : List Transaction) :
    RustRes ValidationError ChainValidityCondition :=
  let validity_condition : ChainValidityCondition :=
    { prev_hash := block_header.prev_hash
      block_hash := block_header.prev_hash }
  match verifyTxList env rollup_name blobs inclusion_proof.txs
      completeness_proof 0 ⟨0, 0, []⟩ with
  | .panic m => .panic m
  | .err e => .err e
  | .ok st =>
    if st.blobIdx < blobs.length then
      .panic "completeness proof is incorrect"
    else
      match removeWalk inclusion_proof.txs st.hashes with
      | .panic m => .panic m
      | .err e => .err e
      | .ok remaining =>
        if remaining ≠ [] then
          .panic "non-relevant transaction found in completeness proof"
        else
          let tx_root := block_header.merkle_root
          if inclusion_proof.txs.any (fun t => t.length ≠ 32) then
            .panic "called unwrap on an Err value: Txid from_slice"
          else
            match env.calculateRoot inclusion_proof.txs with
            | none => .panic "called unwrap on a None value: calculate_root"
            | some root =>
              if root ≠ tx_root then .panic "inclusion proof is incorrect"
              else .ok validity_condition

/-! ## Concrete instantiations used by witnesses and counterexamples -/

/-- A concrete environment in which the PoW check succeeds at nonce 0: the
commit transaction (recognized by its `[6]` commit-address script_pubkey
output) hashes to `6...`, everything else to `00...`. -/
def envZero : Env where
  txid := fun tx =>
    if tx.output.any (fun o => o.script_pubkey = [6]) then List.replicate 32 6
    else 0 :: 0 :: List.replicate 30 0
  sha256d := fun _ => List.replicate 32 0
  validPubkey := fun _ => true
  validSignature := fun _ => true
  verifyEcdsa := fun _ _ _ => true
  decompress := fun b => some b
  calculateRoot := fun _ => some (List.replicate 32 9)
  getSize := fun _ _ _ => 0
  xonlyPubkey := [2]
  commitSpk := fun _ => [6]
  schnorrSign := fun _ _ => [1]
  ctrlParity := fun _ => false
  ctrlRest := fun _ => []
  addrCheckOk := fun _ => true

/-- A concrete environment in which nonce 0 misses the PoW target and nonce 1
hits it: the nonce-1 script (an `OP_PUSHNUM_1` at index 11) produces commit
address `[7]`, and only the reveal spending that commit hashes to `00...`. -/
def envOne : Env where
  txid := fun tx =>
    if tx.output.any (fun o => o.script_pubkey = [7]) then List.replicate 32 7
    else if tx.output.any (fun o => o.script_pubkey = [6]) then List.replicate 32 6
    else if tx.input.any (fun i => i.previous_output.txid = List.replicate 32 7) then
      0 :: 0 :: List.replicate 30 0
    else List.replicate 32 1
  sha256d := fun _ => List.replicate 32 0
  validPubkey := fun _ => true
  validSignature := fun _ => true
  verifyEcdsa := fun _ _ _ => true
  decompress := fun b => some b
  calculateRoot := fun _ => some (List.replicate 32 9)
  getSize := fun _ _ _ => 0
  xonlyPubkey := [2]
  commitSpk := fun s => if s[11]? = some (Inst.op 81) then [7] else [6]
  schnorrSign := fun _ _ => [1]
  ctrlParity := fun _ => false
  ctrlRest := fun _ => []
  addrCheckOk := fun _ => true

/-- A single spendable 1000-sat UTXO. -/
def utxosW : List UTXO := [⟨[4], 0, "a", "s", 1000, 1, true, true⟩]

def scriptZero : List Inst := revealScriptFor envZero [116] [101] [102] [100] 0

def scriptOne : List Inst := revealScriptFor envOne [116] [101] [102] [100] 1

def commitZero : Transaction :=
  ⟨1, 0, [⟨⟨[4], 0⟩, [], SEQUENCE_RBF, []⟩], [⟨546, [6]⟩]⟩

def revealZero : Transaction :=
  ⟨1, 0, [⟨⟨List.replicate 32 6, 0⟩, [], SEQUENCE_RBF,
    [.bytes [1], .script scriptZero, .bytes [192]]⟩], [⟨546, [9]⟩]⟩

def commitOne : Transaction :=
  ⟨1, 0, [⟨⟨[4], 0⟩, [], SEQUENCE_RBF, []⟩], [⟨546, [7]⟩]⟩

def revealOne : Transaction :=
  ⟨1, 0, [⟨⟨List.replicate 32 7, 0⟩, [], SEQUENCE_RBF,
    [.bytes [1], .script scriptOne, .bytes [192]]⟩], [⟨546, [9]⟩]⟩

/-- A header whose own hash (`block_hash`, bytes `2...`) differs from its
parent link (`prev_hash`, bytes `1...`). -/
def headerW : HeaderWrapper :=
  ⟨List.replicate 32 1, List.replicate 32 9, List.replicate 32 2⟩


/-! ## Claim theorems -/

/-- C8: `combine a b` succeeds if and only if `a.block_hash = b.prev_hash`, in
which case it returns `b` unchanged; otherwise it fails with
`BlocksNotConsecutive` (verifier.rs:54-59). -/
theorem c8_combine_spec (a b : ChainValidityCondition) :
    (combine a b = .ok b ↔ a.block_hash = b.prev_hash) ∧
    (∀ r, combine a b = .ok r → r = b) ∧
    (a.block_hash ≠ b.prev_hash →
      combine a b = .error .BlocksNotConsecutive) := by
  by_cases h : a.block_hash = b.prev_hash <;>
    simp [combine, h]

/-- Witness for C8 at concrete validity conditions. -/
theorem c8_combine_spec_witness :
    combine ⟨[1], [2]⟩ ⟨[2], [3]⟩ = .ok ⟨[2], [3]⟩ ∧
    combine ⟨[1], [2]⟩ ⟨[9], [3]⟩ = .error .BlocksNotConsecutive :=
  ⟨(c8_combine_spec ⟨[1], [2]⟩ ⟨[2], [3]⟩).1.mpr (by decide),
   (c8_combine_spec ⟨[1], [2]⟩ ⟨[9], [3]⟩).2.2 (by decide)⟩

/-- C10: `parse_transaction` reads `tx.input[0]` unconditionally
(parsers.rs:38), so on a transaction with no inputs it panics with an
out-of-bounds access instead of returning `NonTapscriptWitness` or any other
`ParserError`. -/
theorem c10_empty_input_panics (tx : Transaction) (name : Bytes)
    (h : tx.input = []) :
    parse_transaction tx name = .panic "index out of bounds" := by
  simp [parse_transaction, get_script, h]

/-- Witness for C10 at a concrete input-less transaction. -/
theorem c10_empty_input_panics_witness :
    (Transaction.mk 1 0 [] []).input = [] ∧
    parse_transaction ⟨1, 0, [], []⟩ [116] = .panic "index out of bounds" :=
  ⟨rfl, c10_empty_input_panics ⟨1, 0, [], []⟩ [116] rfl⟩

/-- C1 (code bug, verifier.rs:83-86): on a successfully verified block the
returned `ChainValidityCondition` carries the header prev_hash in BOTH fields;
its `block_hash` is not the header own hash whenever that hash differs from
the parent link.  Evaluated at a concrete accepting input built from `envZero`
and `headerW` (whose own hash `2...` differs from its prev_hash `1...`). -/
theorem c1_block_hash_is_prev_hash :
    verify_relevant_tx_list envZero [116] headerW [] ⟨[List.replicate 32 3]⟩ [] =
      .ok ⟨List.replicate 32 1, List.replicate 32 1⟩ ∧
    (ChainValidityCondition.mk (List.replicate 32 1) (List.replicate 32 1)).block_hash ≠
      headerW.block_hash ∧
    (ChainValidityCondition.mk (List.replicate 32 1) (List.replicate 32 1)).block_hash =
      headerW.prev_hash := by
  refine ⟨by decide, by decide, by decide⟩


/-- Every result of one completeness-proof step is `ok` or `panic`, never a
typed error: all the checks in verifier.rs:99-169 are `assert!`/`unwrap`
panics, and a parse error is silently skipped. -/
theorem verifyTxStep_ne_err (env : Env) (rollupName : Bytes)
    (blobs : List BlobWithSender) (inclusionTxs : List Bytes) (idxC : Nat)
    (tx : Transaction) (st : VState) (e : ValidationError) :
    verifyTxStep env rollupName blobs inclusionTxs idxC tx st ≠ .err e := by
  intro h
  unfold verifyTxStep at h
  rcases hp : parse_transaction tx rollupName with p | pe | pm <;>
    rcases hf : findFrom inclusionTxs (txidOf env tx) st.prevIndex with _ | i <;>
      by_cases hc : List.take 2 (txidOf env tx) = [0, 0] <;>
        simp [hp, hf, hc] at h <;>
          repeat' split at h <;> try simp_all

theorem verifyTxList_ne_err (env : Env) (rollupName : Bytes)
    (blobs : List BlobWithSender) (inclusionTxs : List Bytes) :
    ∀ (txs : List Transaction) (idx : Nat) (st : VState) (e : ValidationError),
      verifyTxList env rollupName blobs inclusionTxs txs idx st ≠ .err e := by
  intro txs
  induction txs with
  | nil => intro idx st e h; simp [verifyTxList] at h
  | cons tx rest ih =>
    intro idx st e h
    rw [verifyTxList] at h
    split at h
    · simp at h
    · rename_i heq
      exact verifyTxStep_ne_err env rollupName blobs inclusionTxs idx tx st _ heq
    · exact ih _ _ _ h

theorem removeWalk_ne_err :
    ∀ (txs hashes : List Bytes) (e : ValidationError),
      removeWalk txs hashes ≠ .err e := by
  intro txs
  induction txs with
  | nil => intro hashes e h; simp [removeWalk] at h
  | cons t rest ih =>
    intro hashes e h
    rw [removeWalk] at h
    split at h
    · split at h
      · exact ih _ _ h
      · simp at h
    · exact ih _ _ h


/-- C2 (amended): `verify_relevant_tx_list` never returns one of the typed
errors `InvalidTx`/`InvalidProof`/`InvalidBlock`; every internal assertion
failure surfaces as a panic instead. -/
theorem c2_never_typed_error (env : Env) (rollup_name : Bytes)
    (block_header : HeaderWrapper) (blobs : List BlobWithSender)
    (inclusion_proof : InclusionMultiProof)
    (completeness_proof : List Transaction) (e : ValidationError) :
    verify_relevant_tx_list env rollup_name block_header blobs inclusion_proof
      completeness_proof ≠ .err e := by
  intro h
  unfold verify_relevant_tx_list at h
  split at h
  · simp at h
  · rename_i heq
    exact verifyTxList_ne_err env rollup_name blobs inclusion_proof.txs
      completeness_proof 0 ⟨0, 0, []⟩ _ heq
  · split at h
    · simp at h
    · split at h
      · simp at h
      · rename_i heq
        exact removeWalk_ne_err inclusion_proof.txs _ _ heq
      · split at h
        · simp at h
        · split at h
          · simp at h
          · split at h
            · simp at h
            · simp only [] at h
              split at h <;> simp at h

/-- Witness for C2 at a concrete input. -/
theorem c2_never_typed_error_witness :
    verify_relevant_tx_list envZero [116] headerW [] ⟨[List.replicate 32 3]⟩ []
      ≠ .err .InvalidTx :=
  c2_never_typed_error envZero [116] headerW [] ⟨[List.replicate 32 3]⟩ []
    .InvalidTx

/-- Counterexample to C2 as stated: a completeness proof containing a
transaction whose txid does not start with two zero bytes makes
`verify_relevant_tx_list` panic (the `assert_eq!` at verifier.rs:103-107)
rather than return one of the typed errors. -/
theorem c2_counterexample :
    verify_relevant_tx_list envOne [116] headerW [] ⟨[]⟩ [⟨1, 0, [], []⟩] =
      .panic "non-relevant tx found in completeness proof" := by
  decide


/-- Outside the envelope a non-empty data push is a no-op of the parser loop:
in particular it does not reset `last_op` (parsers.rs:112-116 only assign
`last_op` for an empty push). -/
theorem parseLoop_skip_nonempty_pushes (n : Bytes) :
    ∀ (mid : List Inst) (tailI : List (Except Unit Inst)) (lastOp : Option Nat)
      (idx : Nat) (b sg p : Bytes),
      (∀ i ∈ mid, ∃ bs, i = Inst.push bs ∧ bs ≠ []) →
      parseLoop n (mid.map .ok ++ tailI) lastOp false idx b sg p =
        parseLoop n tailI lastOp false idx b sg p := by
  intro mid
  induction mid with
  | nil => intro tailI lastOp idx b sg p _; rfl
  | cons i rest ih =>
    intro tailI lastOp idx b sg p hmid
    obtain ⟨bs, hi, hbs⟩ := hmid i (by simp)
    subst hi
    have hlen : ¬ bs.length = 0 := by
      intro hlen
      exact hbs (List.eq_nil_of_length_eq_zero hlen)
    simp only [List.map_cons, List.cons_append, parseLoop, if_neg hlen,
      if_false, Bool.false_eq_true]
    exact ih tailI lastOp idx b sg p (fun j hj => hmid j (by simp [hj]))

/-- C5 (amended): the envelope opens when `OP_IF` is read while `last_op` is
`FALSE`; the `OP_FALSE` opcode and an empty push set `last_op` identically,
but `last_op` is only reset by another (non-`IF`, non-`ENDIF`) opcode, so a
`FALSE` separated from its `IF` by non-empty data pushes still opens the
envelope, while an intervening plain opcode prevents opening. -/
theorem c5_envelope_open_amended :
    (∀ (rest : List (Except Unit Inst)) (name : Bytes),
      parse_relevant_inscriptions (.ok (.op OP_FALSE) :: rest) name =
        parse_relevant_inscriptions (.ok (.push []) :: rest) name) ∧
    (∀ (mid : List Inst) (rest : List (Except Unit Inst)) (name : Bytes),
      (∀ i ∈ mid, ∃ bs, i = Inst.push bs ∧ bs ≠ []) →
      parse_relevant_inscriptions
          (.ok (.push []) :: mid.map .ok ++ .ok (.op OP_IF) :: rest) name =
        parse_relevant_inscriptions
          (.ok (.push []) :: .ok (.op OP_IF) :: rest) name) ∧
    (∀ (c : Nat) (rest : List (Except Unit Inst)) (name : Bytes),
      c ≠ OP_IF → c ≠ OP_ENDIF → c ≠ OP_FALSE →
      parse_relevant_inscriptions
          (.ok (.push []) :: .ok (.op c) :: .ok (.op OP_IF) :: rest) name =
        parseLoop name rest (some c) false 0 [] [] []) := by
  refine ⟨?_, ?_, ?_⟩
  · intro rest name
    simp [parse_relevant_inscriptions, parseLoop, OP_FALSE, OP_IF, OP_ENDIF]
  · intro mid rest name hmid
    have h1 : parse_relevant_inscriptions
        (.ok (.push []) :: mid.map .ok ++ .ok (.op OP_IF) :: rest) name =
        parseLoop name (mid.map .ok ++ .ok (.op OP_IF) :: rest)
          (some OP_FALSE) false 0 [] [] [] := by
      simp [parse_relevant_inscriptions, parseLoop]
    have h2 : parse_relevant_inscriptions
        (.ok (.push []) :: .ok (.op OP_IF) :: rest) name =
        parseLoop name (.ok (.op OP_IF) :: rest) (some OP_FALSE) false 0 [] [] [] := by
      simp [parse_relevant_inscriptions, parseLoop]
    rw [h1, h2, parseLoop_skip_nonempty_pushes name mid _ _ _ _ _ _ hmid]
  · intro c rest name hif hend hfalse
    simp only [OP_IF, OP_ENDIF, OP_FALSE] at hif hend hfalse
    simp [parse_relevant_inscriptions, parseLoop, hif, hend, hfalse,
      OP_FALSE, OP_IF, OP_ENDIF]

/-- Witness for C5 (amended) with one intervening non-empty push. -/
theorem c5_envelope_open_amended_witness :
    parse_relevant_inscriptions
        (.ok (.push []) :: [Inst.push [9]].map .ok ++ .ok (.op OP_IF) :: []) [116] =
      parse_relevant_inscriptions (.ok (.push []) :: .ok (.op OP_IF) :: []) [116] :=
  c5_envelope_open_amended.2.1 [Inst.push [9]] [] [116]
    (fun i hi => by
      simp at hi
      exact ⟨[9], hi, by decide⟩)

/-- Counterexample to C5 as stated: here the `FALSE` (empty push) is separated
from the `OP_IF` by another instruction (the non-empty push `[9]`), yet the
envelope still opens and its content is returned. -/
theorem c5_counterexample :
    parse_relevant_inscriptions
        (List.map Except.ok
          ([.push [], .push [9], .op OP_IF, .push ROLLUP_NAME_TAG, .push [116],
            .push SIGNATURE_TAG, .push [1], .push PUBLICKEY_TAG, .push [2],
            .push RANDOM_TAG, .push [], .push BODY_TAG, .push [3],
            .op OP_ENDIF] : List Inst)) [116] = .ok ⟨[3], [1], [2]⟩ := by
  decide

/-- C6 (amended): inside the envelope a plain opcode other than `OP_IF` and
`OP_ENDIF` yields `EnvelopeHasNonPushOp`; an `OP_IF` while `last_op = FALSE`
(which is invariably the case once the envelope has opened, since nothing
inside the envelope reassigns `last_op`) is silently skipped; `OP_ENDIF`
terminates parsing and everything after it is ignored. -/
theorem c6_envelope_ops_amended :
    (∀ (c : Nat) (rest : List (Except Unit Inst)) (lastOp : Option Nat)
      (idx : Nat) (b sg p : Bytes) (name : Bytes),
      c ≠ OP_IF → c ≠ OP_ENDIF →
      parseLoop name (.ok (.op c) :: rest) lastOp true idx b sg p =
        .error .EnvelopeHasNonPushOp) ∧
    (∀ (rest : List (Except Unit Inst)) (idx : Nat) (b sg p : Bytes)
      (name : Bytes),
      parseLoop name (.ok (.op OP_IF) :: rest) (some OP_FALSE) true idx b sg p =
        parseLoop name rest (some OP_FALSE) true idx b sg p) ∧
    (∀ (rest : List (Except Unit Inst)) (lastOp : Option Nat) (idx : Nat)
      (b sg p : Bytes) (name : Bytes),
      parseLoop name (.ok (.op OP_ENDIF) :: rest) lastOp true idx b sg p =
        finishInscription b sg p) := by
  refine ⟨?_, ?_, ?_⟩
  · intro c rest lastOp idx b sg p name hif hend
    simp only [OP_IF, OP_ENDIF] at hif hend
    simp [parseLoop, hif, hend, OP_IF, OP_ENDIF]
  · intro rest idx b sg p name
    simp [parseLoop]
  · intro rest lastOp idx b sg p name
    simp [parseLoop, OP_IF, OP_ENDIF]

/-- Witness for C6 (amended) at the `OP_CHECKSIG` opcode. -/
theorem c6_envelope_ops_amended_witness :
    parseLoop [116] [.ok (.op OP_CHECKSIG)] none true 0 [] [] [] =
      .error .EnvelopeHasNonPushOp :=
  c6_envelope_ops_amended.1 OP_CHECKSIG [] none 0 [] [] [] [116]
    (by decide) (by decide)

/-- Counterexample to C6 as stated: a nested `OP_IF` inside the envelope is an
instruction that is neither a data push nor `OP_ENDIF`, yet parsing does not
return `EnvelopeHasNonPushOp` — it succeeds, skipping the nested `OP_IF`. -/
theorem c6_counterexample :
    parse_relevant_inscriptions
        (List.map Except.ok
          ([.push [], .op OP_IF, .op OP_IF, .push ROLLUP_NAME_TAG, .push [116],
            .push SIGNATURE_TAG, .push [1], .push PUBLICKEY_TAG, .push [2],
            .push RANDOM_TAG, .push [], .push BODY_TAG, .push [3],
            .op OP_ENDIF] : List Inst)) [116] = .ok ⟨[3], [1], [2]⟩ := by
  decide


/-- Total amount of a UTXO list. -/
def sumAmounts (l : List UTXO) : Nat := (l.map UTXO.amount).sum

theorem sumAmounts_append (a b : List UTXO) :
    sumAmounts (a ++ b) = sumAmounts a + sumAmounts b := by
  simp [sumAmounts]

theorem sumAmounts_take_le (l : List UTXO) (k : Nat) :
    sumAmounts (l.take k) ≤ sumAmounts l := by
  conv_rhs => rw [← List.take_append_drop k l]
  rw [sumAmounts_append]
  omega

theorem mem_le_sumAmounts (l : List UTXO) (u : UTXO) :
    u ∈ l → u.amount ≤ sumAmounts l := by
  induction l with
  | nil => intro h; cases h
  | cons v rest ih =>
    intro h
    rw [List.mem_cons] at h
    rcases h with h | h
    · subst h
      simp [sumAmounts]
    · have h2 := ih h
      simp [sumAmounts] at h2 ⊢
      omega

/-- Everything the greedy loop returns comes from its accumulator or its
input list. -/
theorem greedySelect_mem (amount : Nat) :
    ∀ (l : List UTXO) (s : Nat) (c : List UTXO) (x : UTXO),
      x ∈ (greedySelect amount l s c).1 → x ∈ c ∨ x ∈ l := by
  intro l
  induction l with
  | nil => intro s c x hx; exact Or.inl hx
  | cons u rest ih =>
    intro s c x hx
    rw [greedySelect] at hx
    by_cases hle : amount ≤ s + u.amount
    · rw [if_pos hle] at hx
      rcases List.mem_append.mp hx with h | h
      · exact Or.inl h
      · simp at h
        exact Or.inr (by simp [h])
    · rw [if_neg hle] at hx
      rcases ih (s + u.amount) (c ++ [u]) x hx with h | h
      · rcases List.mem_append.mp h with h2 | h2
        · exact Or.inl h2
        · simp at h2
          exact Or.inr (by simp [h2])
      · exact Or.inr (by simp [h])

/-- Characterization of the greedy loop started below the target: it consumes
a prefix of its input, reaching the target exactly at the last consumed
element (or exhausting the list). -/
theorem greedySelect_spec (amount : Nat) :
    ∀ (l : List UTXO) (s : Nat) (c : List UTXO), s < amount →
      ∃ k, k ≤ l.length ∧
        greedySelect amount l s c = (c ++ l.take k, s + sumAmounts (l.take k)) ∧
        (∀ j, j < k → s + sumAmounts (l.take j) < amount) ∧
        (amount ≤ s + sumAmounts (l.take k) ∨ k = l.length) := by
  intro l
  induction l with
  | nil =>
    intro s c _
    exact ⟨0, by simp [greedySelect, sumAmounts]⟩
  | cons u rest ih =>
    intro s c hs
    by_cases hle : amount ≤ s + u.amount
    · refine ⟨1, by simp, ?_, ?_, Or.inl ?_⟩
      · simp [greedySelect, hle, sumAmounts]
      · intro j hj
        interval_cases j
        simpa [sumAmounts] using hs
      · simpa [sumAmounts] using hle
    · have hs2 : s + u.amount < amount := by omega
      obtain ⟨k, hk, heq, hmin, hlast⟩ := ih (s + u.amount) (c ++ [u]) hs2
      refine ⟨k + 1, by simp; omega, ?_, ?_, ?_⟩
      · rw [greedySelect, if_neg hle, heq]
        simp [sumAmounts]
        omega
      · intro j hj
        cases j with
        | zero => simpa [sumAmounts] using hs
        | succ jj =>
          have := hmin jj (by omega)
          simp [sumAmounts] at this ⊢
          omega
      · rcases hlast with h | h
        · left
          simp [sumAmounts] at h ⊢
          omega
        · right
          simp [h]

/-- The head of the ascending insertion sort is a minimum of the list. -/
theorem insertionSort_head_min (l : List UTXO) (u : UTXO) (rest : List UTXO)
    (h : List.insertionSort amountLe l = u :: rest) :
    u ∈ l ∧ ∀ v ∈ l, u.amount ≤ v.amount := by
  have hperm := List.perm_insertionSort amountLe l
  constructor
  · exact hperm.mem_iff.mp (by rw [h]; exact List.mem_cons_self u rest)
  · intro v hv
    have hs := List.sorted_insertionSort amountLe l
    rw [h] at hs
    have hv2 : v ∈ u :: rest := by
      rw [← h]
      exact hperm.mem_iff.mpr hv
    rcases List.mem_cons.mp hv2 with h2 | h2
    · simp [h2]
    · exact List.rel_of_sorted_cons hs v h2

/-- C4: `choose_utxos` picks the smallest single sufficient UTXO when one
exists; fails with the literal message `"not enought UTXOs"` when the total is
below the request; on success the sum covers the request and every chosen
UTXO comes from the input; and in the greedy fallback the chosen list is a
largest-first prefix that first reaches the request (builders.rs:88-125). -/
theorem c4_choose_utxos_correct (utxos : List UTXO) (amount : Nat) :
    ((∃ u ∈ utxos, amount ≤ u.amount) →
      ∃ u, u ∈ utxos ∧ amount ≤ u.amount ∧
        (∀ v ∈ utxos, amount ≤ v.amount → u.amount ≤ v.amount) ∧
        choose_utxos utxos amount = .ok ([u], u.amount)) ∧
    (sumAmounts utxos < amount →
      choose_utxos utxos amount = .error "not enought UTXOs") ∧
    (∀ chosen sum, choose_utxos utxos amount = .ok (chosen, sum) →
      amount ≤ sum ∧ ∀ u ∈ chosen, u ∈ utxos) ∧
    ((∀ u ∈ utxos, u.amount < amount) →
      ∀ chosen sum, choose_utxos utxos amount = .ok (chosen, sum) →
        chosen = (List.insertionSort amountGe
            (utxos.filter (fun u => u.amount < amount))).take chosen.length ∧
        sum = sumAmounts chosen ∧
        ∀ j, j < chosen.length → sumAmounts (chosen.take j) < amount) := by
  refine ⟨?_, ?_, ?_, ?_⟩
  · rintro ⟨u0, hu0, hu0a⟩
    have hu0b : u0 ∈ utxos.filter (fun u => amount ≤ u.amount) :=
      List.mem_filter.mpr ⟨hu0, by simpa using hu0a⟩
    have hpos : 0 < (utxos.filter (fun u => amount ≤ u.amount)).length :=
      List.length_pos.mpr (fun hnil => by simp [hnil] at hu0b)
    cases hs : List.insertionSort amountLe
        (utxos.filter (fun u => amount ≤ u.amount)) with
    | nil =>
      exfalso
      have hlen := (List.perm_insertionSort amountLe
        (utxos.filter (fun u => amount ≤ u.amount))).length_eq
      rw [hs] at hlen
      simp at hlen
      omega
    | cons u rest =>
      obtain ⟨humem, humin⟩ := insertionSort_head_min _ u rest hs
      have hfu := List.mem_filter.mp humem
      refine ⟨u, hfu.1, by simpa using hfu.2, ?_, ?_⟩
      · intro v hv hva
        exact humin v (List.mem_filter.mpr ⟨hv, by simpa using hva⟩)
      · simp [choose_utxos, hpos, hs]
  · intro htot
    have hbig : utxos.filter (fun u => amount ≤ u.amount) = [] := by
      apply List.filter_eq_nil_iff.mpr
      intro a ha
      have := mem_le_sumAmounts utxos a ha
      simp
      omega
    have hsmall : utxos.filter (fun u => u.amount < amount) = utxos := by
      apply List.filter_eq_self.mpr
      intro a ha
      have := mem_le_sumAmounts utxos a ha
      simp
      omega
    have hsum_sorted : sumAmounts (List.insertionSort amountGe utxos) =
        sumAmounts utxos :=
      ((List.perm_insertionSort amountGe utxos).map UTXO.amount).sum_eq
    obtain ⟨k, hk, heq, hmin, hlast⟩ := greedySelect_spec amount
      (List.insertionSort amountGe utxos) 0 [] (by omega)
    have hlt : 0 + sumAmounts ((List.insertionSort amountGe utxos).take k) <
        amount := by
      have h1 := sumAmounts_take_le (List.insertionSort amountGe utxos) k
      omega
    simp [choose_utxos, hbig, hsmall, heq, hlt]
    omega
  · intro chosen sum hok
    by_cases hpos : 0 < (utxos.filter (fun u => amount ≤ u.amount)).length
    · cases hs : List.insertionSort amountLe
          (utxos.filter (fun u => amount ≤ u.amount)) with
      | nil =>
        exfalso
        have hlen := (List.perm_insertionSort amountLe
          (utxos.filter (fun u => amount ≤ u.amount))).length_eq
        rw [hs] at hlen
        simp at hlen
        omega
      | cons u rest =>
        obtain ⟨humem, _⟩ := insertionSort_head_min _ u rest hs
        have hfu := List.mem_filter.mp humem
        simp [choose_utxos, hpos, hs] at hok
        obtain ⟨h1, h2⟩ := hok
        constructor
        · rw [← h2]
          simpa using hfu.2
        · intro x hx
          rw [← h1] at hx
          simp at hx
          rw [hx]
          exact hfu.1
    · simp only [choose_utxos, if_neg hpos] at hok
      split at hok
      · simp at hok
      · rename_i hge
        have hres : greedySelect amount (List.insertionSort amountGe
            (utxos.filter (fun u => u.amount < amount))) 0 [] = (chosen, sum) := by
          simpa using hok
        constructor
        · rw [hres] at hge
          omega
        · intro x hx
          have hx2 : x ∈ (greedySelect amount (List.insertionSort amountGe
              (utxos.filter (fun u => u.amount < amount))) 0 []).1 := by
            rw [hres]
            exact hx
          rcases greedySelect_mem amount _ 0 [] x hx2 with h | h
          · cases h
          · have := (List.perm_insertionSort amountGe
              (utxos.filter (fun u => u.amount < amount))).mem_iff.mp h
            exact (List.mem_filter.mp this).1
  · intro hall chosen sum hok
    have hbig : utxos.filter (fun u => amount ≤ u.amount) = [] := by
      apply List.filter_eq_nil_iff.mpr
      intro a ha
      have := hall a ha
      simp
      omega
    have hlen0 : ¬ 0 < (utxos.filter (fun u => amount ≤ u.amount)).length := by
      simp [hbig]
    by_cases hz : amount = 0
    · subst hz
      have hnil : utxos = [] := by
        cases hu : utxos with
        | nil => rfl
        | cons a t =>
          exact absurd (hall a (by simp [hu])) (by omega)
      subst hnil
      simp [choose_utxos, greedySelect] at hok
      obtain ⟨h1, h2⟩ := hok
      refine ⟨by simp [h1], by simp [h1, ← h2, sumAmounts], ?_⟩
      intro j hj
      simp [h1] at hj
    · have hposA : 0 < amount := Nat.pos_of_ne_zero hz
      obtain ⟨k, hk, heq, hmin, hlast⟩ := greedySelect_spec amount
        (List.insertionSort amountGe (utxos.filter (fun u => u.amount < amount)))
        0 [] hposA
      simp only [choose_utxos, if_neg hlen0, heq] at hok
      split at hok
      · simp at hok
      · simp only [Except.ok.injEq, Prod.mk.injEq, List.nil_append,
          Nat.zero_add] at hok
        have h1 : chosen = (List.insertionSort amountGe
            (utxos.filter (fun u => u.amount < amount))).take k := hok.1.symm
        have h2 : sum = sumAmounts ((List.insertionSort amountGe
            (utxos.filter (fun u => u.amount < amount))).take k) := hok.2.symm
        have hclen : chosen.length = k := by
          rw [h1, List.length_take]
          omega
        refine ⟨?_, ?_, ?_⟩
        · rw [hclen, h1]
        · rw [h2, h1]
        · intro j hj
          rw [hclen] at hj
          have hcj : chosen.take j = (List.insertionSort amountGe
              (utxos.filter (fun u => u.amount < amount))).take j := by
            rw [h1, List.take_take]
            congr 1
            omega
          rw [hcj]
          have := hmin j hj
          omega


/-- The three UTXOs of spec scenarios S1-S4. -/
def utxosS : List UTXO :=
  [⟨[1], 0, "a", "s", 1000000, 100, true, true⟩,
   ⟨[2], 0, "a", "s", 100000, 100, true, true⟩,
   ⟨[3], 0, "a", "s", 10000, 100, true, true⟩]

/-- Witness for C4 at the spec scenarios S1 (request 105000, one sufficient
UTXO exists) and S4 (request 100000000, total insufficient). -/
theorem c4_choose_utxos_correct_witness :
    (∃ u, u ∈ utxosS ∧ 105000 ≤ u.amount ∧
      (∀ v ∈ utxosS, 105000 ≤ v.amount → u.amount ≤ v.amount) ∧
      choose_utxos utxosS 105000 = .ok ([u], u.amount)) ∧
    choose_utxos utxosS 100000000 = .error "not enought UTXOs" :=
  ⟨(c4_choose_utxos_correct utxosS 105000).1
      ⟨⟨[1], 0, "a", "s", 1000000, 100, true, true⟩, by decide, by decide⟩,
    (c4_choose_utxos_correct utxosS 100000000).2.1 (by decide)⟩


/-- The txid is computed on the witness-stripped transaction, so rewriting the
witness of an input does not change it. -/
theorem txidOf_update_witness (env : Env) (tx : Transaction) (i0 : TxIn)
    (rest : List TxIn) (w : List WElem) (h : tx.input = i0 :: rest) :
    txidOf env { tx with input := { i0 with witness := w } :: rest } =
      txidOf env tx := by
  cases tx
  cases i0
  simp_all [txidOf, stripWitness]

/-- Any successful exit of the mining loop happened inside its PoW branch, so
the returned reveal transaction txid starts with two zero bytes. -/
theorem inscribeLoop_pow (env : Env) (n sg pk body : Bytes) (utxos : List UTXO)
    (rspk : Bytes) (cr rr : Nat → Nat) (cf rf : Nat) :
    ∀ (fuel : Nat) (random : Int) (c r : Transaction),
      inscribeLoop env n sg pk body utxos rspk cr rr cf rf fuel random =
        some (.ok (c, r)) →
      (txidOf env r).take 2 = [0, 0] := by
  intro fuel
  induction fuel with
  | zero =>
    intro random c r h
    simp [inscribeLoop] at h
  | succ m ih =>
    intro random c r h
    simp only [inscribeLoop] at h
    split at h
    · simp at h
    · simp at h
    · split at h
      · simp at h
      · split at h
        · simp at h
        · simp at h
        · rename_i reveal_tx hrev
          split at h
          · rename_i hpow
            split at h
            · simp at h
            · rename_i i0 rest hinput
              split at h
              · simp only [Option.some.injEq, RustRes.ok.injEq,
                  Prod.mk.injEq] at h
                obtain ⟨hc, hr⟩ := h
                rw [← hr,
                  txidOf_update_witness env reveal_tx i0 rest _ hinput]
                exact hpow
              · simp at h
          · exact ih (random + 1) c r h

/-- C7: whenever `create_inscription_transactions` returns successfully, the
first two bytes of the reveal transaction txid are `0x00 0x00`
(builders.rs:404-447). -/
theorem c7_reveal_txid_pow (env : Env) (rollup_name : Bytes)
    (body signature sequencer_public_key : Bytes) (utxos : List UTXO)
    (recipientSpk : Bytes) (commit_fee_rate reveal_fee_rate : Nat → Nat)
    (commitFuel revealFuel mineFuel : Nat) (commit reveal : Transaction)
    (h : create_inscription_transactions env rollup_name body signature
      sequencer_public_key utxos recipientSpk commit_fee_rate reveal_fee_rate
      commitFuel revealFuel mineFuel = some (.ok (commit, reveal))) :
    (txidOf env reveal).take 2 = [0, 0] :=
  inscribeLoop_pow env rollup_name signature sequencer_public_key body utxos
    recipientSpk commit_fee_rate reveal_fee_rate commitFuel revealFuel
    mineFuel 0 commit reveal h

/-- Witness for C7 at a concrete successful build in `envZero`. -/
theorem c7_reveal_txid_pow_witness :
    (txidOf envZero revealZero).take 2 = [0, 0] :=
  c7_reveal_txid_pow envZero [116] [100] [101] [102] utxosW [9]
    (fun _ => 0) (fun _ => 0) 2 2 2 commitZero revealZero (by decide)


theorem chunks520Fuel_flatten :
    ∀ (fuel : Nat) (l : Bytes), l.length ≤ fuel →
      (chunks520Fuel fuel l).flatten = l := by
  intro fuel
  induction fuel with
  | zero =>
    intro l hl
    have : l = [] := List.eq_nil_of_length_eq_zero (by omega)
    subst this
    rfl
  | succ m ih =>
    intro l hl
    cases l with
    | nil => rfl
    | cons b t =>
      rw [chunks520Fuel]
      simp only [List.flatten_cons]
      rw [ih ((b :: t).drop 520) (by simp at hl ⊢; omega)]
      exact List.take_append_drop 520 (b :: t)

/-- The 520-byte chunks of a body concatenate back to the body. -/
theorem chunks520_flatten (l : Bytes) : (chunks520 l).flatten = l :=
  chunks520Fuel_flatten l.length l (Nat.le_refl _)

/-- Body pushes at envelope indices at or above 9 are all appended to the
body accumulator, and the closing `OP_ENDIF` ends parsing with the final
emptiness check. -/
theorem parseLoop_body_chunks (n : Bytes) :
    ∀ (cs : List Bytes) (idx : Nat) (b sg p : Bytes), 9 ≤ idx →
      parseLoop n ((cs.map Inst.push).map Except.ok ++
          [Except.ok (Inst.op OP_ENDIF)]) (some OP_FALSE) true idx b sg p =
        finishInscription (b ++ cs.flatten) sg p := by
  intro cs
  induction cs with
  | nil =>
    intro idx b sg p _
    simp [parseLoop, OP_ENDIF, OP_IF]
  | cons c cs ih =>
    intro idx b sg p h9
    have h0 : idx ≠ 0 := by omega
    have h1 : idx ≠ 1 := by omega
    have h2 : idx ≠ 2 := by omega
    have h3 : idx ≠ 3 := by omega
    have h4 : idx ≠ 4 := by omega
    have h5 : idx ≠ 5 := by omega
    have h6 : idx ≠ 6 := by omega
    have h8 : idx ≠ 8 := by omega
    simp only [List.map_cons, List.cons_append]
    simp [parseLoop, h0, h1, h2, h3, h4, h5, h6, h8, h9]
    simp only [List.map_map] at ih
    rw [ih (idx + 1) (b ++ c) sg p (by omega)]
    simp


/-- `parseLoop_body_chunks` restated in the normal form `simp` produces
(composed maps and unfolded opcode constants). -/
theorem parseLoop_body_chunks_comp (n : Bytes) (cs : List Bytes) (idx : Nat)
    (b sg p : Bytes) (h9 : 9 ≤ idx) :
    parseLoop n (List.map (Except.ok ∘ Inst.push) cs ++
        [Except.ok (Inst.op 104)]) (some 0) true idx b sg p =
      finishInscription (b ++ cs.flatten) sg p := by
  have h := parseLoop_body_chunks n cs idx b sg p h9
  simpa [List.map_map, OP_ENDIF, OP_FALSE] using h

/-- Parsing the reveal script the builder constructs: a nonce encoded as a
data push (0, or 17 and up) round-trips to exactly the embedded fields, while
a nonce in 1..=16 is an `OP_PUSHNUM` opcode and parsing fails with
`EnvelopeHasNonPushOp`. -/
theorem parse_revealScript (env : Env) (n sg pk body : Bytes) (rand : Int)
    (hb : body ≠ []) (hsg : sg ≠ []) (hpk : pk ≠ []) :
    ((rand = 0 ∨ 17 ≤ rand) →
      parse_relevant_inscriptions
        ((revealScriptFor env n sg pk body rand).map .ok) n =
        .ok ⟨body, sg, pk⟩) ∧
    (1 ≤ rand → rand ≤ 16 →
      parse_relevant_inscriptions
        ((revealScriptFor env n sg pk body rand).map .ok) n =
        .error .EnvelopeHasNonPushOp) := by
  constructor
  · intro hr
    have hpush : ∃ bs, pushInt rand = .push bs := by
      rcases hr with h | h
      · exact ⟨[], by simp [pushInt, h]⟩
      · refine ⟨scriptIntBytes rand.natAbs, ?_⟩
        rw [pushInt, if_neg (by omega), if_neg (by omega)]
    obtain ⟨bs, hbs⟩ := hpush
    have hb0 : ¬ body.length = 0 :=
      fun hh => hb (List.eq_nil_of_length_eq_zero hh)
    have hsg0 : ¬ sg.length = 0 :=
      fun hh => hsg (List.eq_nil_of_length_eq_zero hh)
    have hpk0 : ¬ pk.length = 0 :=
      fun hh => hpk (List.eq_nil_of_length_eq_zero hh)
    by_cases hx : env.xonlyPubkey.length = 0 <;>
    · simp [revealScriptFor, parse_relevant_inscriptions, parseLoop, hbs, hx,
        OP_IF, OP_ENDIF, OP_CHECKSIG, OP_FALSE]
      rw [parseLoop_body_chunks_comp n (chunks520 body) 9 [] sg pk
        (by omega)]
      simp [chunks520_flatten, finishInscription, hb0, hsg0, hpk0]
  · intro h1 h16
    have hop : pushInt rand = .op ((rand + 80).toNat) := by
      rw [pushInt, if_pos (Or.inr ⟨h1, h16⟩)]
    have hcode1 : ¬ (rand + 80).toNat = 99 := by omega
    have hcode2 : ¬ (rand + 80).toNat = 104 := by omega
    by_cases hx : env.xonlyPubkey.length = 0 <;>
      simp [revealScriptFor, parse_relevant_inscriptions, parseLoop, hop, hx,
        hcode1, hcode2, OP_IF, OP_ENDIF, OP_CHECKSIG, OP_FALSE]


/-- Any transaction the reveal fee loop returns has the fixed single input
spending `(input_txid, input_vout)` with an empty witness. -/
theorem revealLoop_ok_shape (env : Env) (iv : Nat) (itxid : Bytes)
    (ivout : Nat) (rspk : Bytes) (ov : Nat) (fr : Nat → Nat) (s2 : List Inst)
    (cb : Bytes) :
    ∀ (fuel size : Nat) (t : Transaction),
      revealLoop env iv itxid ivout rspk ov fr s2 cb fuel size =
        some (.ok t) →
      ∃ outs, t = ⟨1, 0, [⟨⟨itxid, ivout⟩, [], SEQUENCE_RBF, []⟩], outs⟩ := by
  intro fuel
  induction fuel with
  | zero => intro size t h; simp [revealLoop] at h
  | succ m ih =>
    intro size t h
    simp only [revealLoop] at h
    split at h
    · simp only [Option.some.injEq, Except.ok.injEq] at h
      exact ⟨_, h.symm⟩
    · exact ih _ t h

theorem build_reveal_ok_shape (env : Env) (iu : TxOut) (itxid : Bytes)
    (ivout : Nat) (rspk : Bytes) (ov : Nat) (fr : Nat → Nat) (s2 : List Inst)
    (cb : Bytes) (fuel : Nat) (t : Transaction)
    (h : build_reveal_transaction env iu itxid ivout rspk ov fr s2 cb fuel =
      some (.ok t)) :
    ∃ outs, t = ⟨1, 0, [⟨⟨itxid, ivout⟩, [], SEQUENCE_RBF, []⟩], outs⟩ := by
  simp only [build_reveal_transaction] at h
  split at h
  · simp at h
  · exact revealLoop_ok_shape env iu.value itxid ivout rspk ov fr s2 cb
      fuel _ t h

/-- `ControlBlock::serialize` never starts with the annex marker 0x50: its
first byte is 0xc0 or 0xc1. -/
theorem controlBlockBytes_head_ne (env : Env) (s2 : List Inst) :
    (controlBlockBytes env s2).head? ≠ some 0x50 := by
  cases hpar : env.ctrlParity s2 <;> simp [controlBlockBytes, hpar]

/-- On the `[signature, script, control block]` witness the tapscript is the
middle element, provided the control block does not look like an annex. -/
theorem tapscript_three (a : WElem) (s2 : List Inst) (cb : Bytes)
    (hcb : cb.head? ≠ some 0x50) :
    tapscript [a, .script s2, .bytes cb] = some (.script s2) := by
  simp [tapscript, WElem.firstByte, hcb]

/-- Any success of the mining loop returns the reveal transaction in canonical
form: one input spending the commit, with witness
`[signature, reveal script for the winning nonce, control block]`. -/
theorem inscribeLoop_ok_shape (env : Env) (n sg pk body : Bytes)
    (utxos : List UTXO) (rspk : Bytes) (cr rr : Nat → Nat) (cf rf : Nat) :
    ∀ (fuel : Nat) (random : Int) (c r : Transaction), 0 ≤ random →
      inscribeLoop env n sg pk body utxos rspk cr rr cf rf fuel random =
        some (.ok (c, r)) →
      ∃ (rand : Int) (ptxid : Bytes) (outs : List TxOut) (sigB : Bytes),
        0 ≤ rand ∧
        r = ⟨1, 0, [⟨⟨ptxid, 0⟩, [], SEQUENCE_RBF,
          [.bytes sigB,
           .script (revealScriptFor env n sg pk body rand),
           .bytes (controlBlockBytes env
             (revealScriptFor env n sg pk body rand))]⟩], outs⟩ := by
  intro fuel
  induction fuel with
  | zero =>
    intro random c r _ h
    simp [inscribeLoop] at h
  | succ m ih =>
    intro random c r h0 h
    simp only [inscribeLoop] at h
    split at h
    · simp at h
    · simp at h
    · rename_i unsigned hcommit
      split at h
      · simp at h
      · split at h
        · simp at h
        · simp at h
        · rename_i reveal_tx hrev
          split at h
          · split at h
            · simp at h
            · rename_i i0 rest hinput
              split at h
              · simp only [Option.some.injEq, RustRes.ok.injEq,
                  Prod.mk.injEq] at h
                obtain ⟨hc, hr⟩ := h
                obtain ⟨outs, hshape⟩ := build_reveal_ok_shape _ _ _ _ _ _ _
                  _ _ _ _ hrev
                rw [hshape] at hinput
                simp only [List.cons.injEq] at hinput
                obtain ⟨hi0, hrest⟩ := hinput
                subst hi0
                subst hrest
                refine ⟨random, txidOf env unsigned, outs,
                  env.schnorrSign reveal_tx
                    (revealScriptFor env n sg pk body random), h0, ?_⟩
                rw [← hr, hshape]
                simp
              · simp at h
          · exact ih (random + 1) c r (by omega) h


/-- C3 (amended): for every successful build with non-empty body, signature
and public key, parsing the returned reveal transaction either yields exactly
the embedded `(body, signature, public key)` or fails with
`EnvelopeHasNonPushOp`; the failure occurs exactly when the winning nonce is
in 1..=16, which `Builder::push_int` encodes as an `OP_PUSHNUM` opcode rather
than a data push. -/
theorem c3_roundtrip_amended (env : Env) (rollup_name : Bytes)
    (body signature sequencer_public_key : Bytes) (utxos : List UTXO)
    (recipientSpk : Bytes) (commit_fee_rate reveal_fee_rate : Nat → Nat)
    (commitFuel revealFuel mineFuel : Nat) (commit reveal : Transaction)
    (hb : body ≠ []) (hsg : signature ≠ []) (hpk : sequencer_public_key ≠ [])
    (h : create_inscription_transactions env rollup_name body signature
      sequencer_public_key utxos recipientSpk commit_fee_rate reveal_fee_rate
      commitFuel revealFuel mineFuel = some (.ok (commit, reveal))) :
    parse_transaction reveal rollup_name =
      .ok ⟨body, signature, sequencer_public_key⟩ ∨
    parse_transaction reveal rollup_name = .err .EnvelopeHasNonPushOp := by
  obtain ⟨rand, ptxid, outs, sigB, h0, hr⟩ :=
    inscribeLoop_ok_shape env rollup_name signature sequencer_public_key body
      utxos recipientSpk commit_fee_rate reveal_fee_rate commitFuel revealFuel
      mineFuel 0 commit reveal (by omega) h
  subst hr
  have htaps := tapscript_three (WElem.bytes sigB)
    (revealScriptFor env rollup_name signature sequencer_public_key body rand)
    (controlBlockBytes env (revealScriptFor env rollup_name signature
      sequencer_public_key body rand))
    (controlBlockBytes_head_ne env _)
  have hparse := parse_revealScript env rollup_name signature
    sequencer_public_key body rand hb hsg hpk
  rcases (show rand = 0 ∨ (1 ≤ rand ∧ rand ≤ 16) ∨ 17 ≤ rand by omega) with
    h1 | h1 | h1
  · left
    simp [parse_transaction, get_script, htaps, WElem.instructions,
      hparse.1 (Or.inl h1)]
  · right
    simp [parse_transaction, get_script, htaps, WElem.instructions,
      hparse.2 h1.1 h1.2]
  · left
    simp [parse_transaction, get_script, htaps, WElem.instructions,
      hparse.1 (Or.inr h1)]

/-- Witness for C3 (amended) at a concrete build won by nonce 0. -/
theorem c3_roundtrip_amended_witness :
    parse_transaction revealZero [116] = .ok ⟨[100], [101], [102]⟩ ∨
    parse_transaction revealZero [116] = .err .EnvelopeHasNonPushOp :=
  c3_roundtrip_amended envZero [116] [100] [101] [102] utxosW [9]
    (fun _ => 0) (fun _ => 0) 2 2 2 commitZero revealZero
    (by decide) (by decide) (by decide) (by decide)

/-- Counterexample to C3 as stated: in `envOne` the mining loop succeeds at
nonce 1, whose `OP_PUSHNUM_1` encoding makes `parse_transaction` reject the
reveal transaction, so the build/parse round trip fails. -/
theorem c3_counterexample :
    create_inscription_transactions envOne [116] [100] [101] [102] utxosW [9]
      (fun _ => 0) (fun _ => 0) 2 2 3 = some (.ok (commitOne, revealOne)) ∧
    parse_transaction revealOne [116] = .err .EnvelopeHasNonPushOp ∧
    parse_transaction revealOne [116] ≠ .ok ⟨[100], [101], [102]⟩ := by
  refine ⟨by decide, by decide, by decide⟩


/-- C9: when a completeness-proof transaction parses but its captured public
key bytes are not a valid secp256k1 key — or its signature bytes are not a
valid compact signature — the verifier panics on the `unwrap`s of
verifier.rs:136-138 instead of skipping the transaction or returning a typed
error. -/
theorem c9_unwrap_panics (env : Env) (rollup_name : Bytes)
    (header : HeaderWrapper) (blobs : List BlobWithSender) (tx : Transaction)
    (p : ParsedInscription)
    (hparse : parse_transaction tx rollup_name = .ok p)
    (hpow : (txidOf env tx).take 2 = [0, 0]) :
    (env.validPubkey p.public_key = false →
      verify_relevant_tx_list env rollup_name header blobs
          ⟨[txidOf env tx]⟩ [tx] =
        .panic "called unwrap on an Err value: PublicKey from_slice") ∧
    (env.validPubkey p.public_key = true →
      env.validSignature p.signature = false →
      verify_relevant_tx_list env rollup_name header blobs
          ⟨[txidOf env tx]⟩ [tx] =
        .panic "called unwrap on an Err value: Signature from_compact") := by
  have hfind : findFrom [txidOf env tx] (txidOf env tx) 0 = some 0 := by
    simp [findFrom, findFromList]
  constructor
  · intro hpub
    simp [verify_relevant_tx_list, verifyTxList, verifyTxStep, hpow, hfind,
      hparse, hpub]
  · intro hpub hsig
    simp [verify_relevant_tx_list, verifyTxList, verifyTxStep, hpow, hfind,
      hparse, hpub, hsig]

/-- An environment in which every candidate public key fails
`PublicKey::from_slice` and every txid is PoW-tagged. -/
def envNine : Env :=
  { envZero with
      validPubkey := fun _ => false
      txid := fun _ => 0 :: 0 :: List.replicate 30 0 }

def script9 : List Inst :=
  [.push [], .op OP_IF, .push ROLLUP_NAME_TAG, .push [116],
   .push SIGNATURE_TAG, .push [5], .push PUBLICKEY_TAG, .push [6],
   .push RANDOM_TAG, .push [], .push BODY_TAG, .push [7], .op OP_ENDIF]

/-- A transaction with a well-formed envelope whose embedded public key bytes
`[6]` are not a valid secp256k1 key in `envNine`. -/
def tx9 : Transaction :=
  ⟨1, 0, [⟨⟨List.replicate 32 0, 0⟩, [], SEQUENCE_RBF,
    [.script script9, .bytes [192]]⟩], []⟩

/-- Witness for C9 at a concrete parsing transaction with an invalid key. -/
theorem c9_unwrap_panics_witness :
    verify_relevant_tx_list envNine [116] headerW []
        ⟨[txidOf envNine tx9]⟩ [tx9] =
      .panic "called unwrap on an Err value: PublicKey from_slice" :=
  (c9_unwrap_panics envNine [116] headerW [] tx9 ⟨[7], [5], [6]⟩
    (by decide) (by decide)).1 (by decide)

end BitcoinDa
